import Mathlib

/-!
Shallow embedding of the seasonal-pattern analysis core of
`src/Monthlypatterns.py` (function `analyze_month_patterns`, lines 341-403,
and the annual-summary construction inside `main`, lines 647-662).

Prices and returns are modelled as exact rationals; a pandas `NaN` cell is
modelled as `none` of an `Option ℚ`.  Python dictionaries are modelled as
association lists with insertion-order semantics (a new key is appended at
the end, an existing key is updated in place), matching CPython dicts.
-/

/-- One row of the downloaded dataframe after `get_stock_data` has added the
`Daily_Return`, `Year`, `Month` and `Day` columns.  `t` is the date serial
used as the dataframe index (`sort_index` sorts by it). -/
structure Row where
  t : Nat
  year : Int
  month : Nat
  day : Nat
  close : Option ℚ
  ret : Option ℚ
deriving Repr, DecidableEq

/-- Close value of a row that is known to be valid (filtered). -/
def Row.cl (o : Row) : ℚ := o.close.getD 0

/-- Daily return of a row that is known to be valid (filtered). -/
def Row.rt (o : Row) : ℚ := o.ret.getD 0

/-- Arithmetic mean of a list of rationals (`np.mean`); only ever applied to
non-empty lists in the pipeline. -/
def mean (l : List ℚ) : ℚ := l.sum / l.length

/-- Maximum of a list (`max(...)` in Python); only applied to non-empty lists. -/
def listMax : List ℚ → ℚ
  | [] => 0
  | x :: xs => xs.foldl max x

/-- Insert a row into a list sorted by the date serial `t` (stable). -/
def insertByT (o : Row) : List Row → List Row
  | [] => [o]
  | x :: xs => if o.t ≤ x.t then o :: x :: xs else x :: insertByT o xs

/-- Sort rows by date serial: models `year_month.sort_index()`. -/
def sortByT (l : List Row) : List Row := l.foldr insertByT []

/-- Distinct years in order of first appearance: models
`month_data['Year'].unique()`. -/
def uniqueYears (l : List Row) : List Int :=
  l.foldl (fun acc o => if o.year ∈ acc then acc else acc ++ [o.year]) []

/-- Validity filter of line 354: `Daily_Return` and `Close` both non-NaN. -/
def validFilter (l : List Row) : List Row :=
  l.filter fun o => o.ret.isSome && o.close.isSome

/-- The filtered, sorted (year, month) slice the loop body works on:
`month_data[month_data['Year'] == year]` restricted by the validity mask and
then sorted by index. -/
def sliceFor (data : List Row) (m : Nat) (y : Int) : List Row :=
  sortByT (validFilter ((data.filter fun o => o.month = m).filter fun o => o.year = y))

/-- Rebased cumulative return column `Month_Return`:
`close / first_price - 1` for every row of the slice. -/
def monthReturns (s : List Row) : List ℚ :=
  match s with
  | [] => []
  | f :: _ => s.map fun o => o.cl / f.cl - 1

/-- Tail of the centered 3-point rolling mean: emits the window mean of the
three values currently in scope, then slides; closes with the trailing
undefined entry. -/
def roll3Aux (a b c : ℚ) : List ℚ → List (Option ℚ)
  | [] => [some ((a + b + c) / 3), none]
  | d :: rest => some ((a + b + c) / 3) :: roll3Aux b c d rest

/-- Centered 3-point rolling mean, `rolling(window=3, center=True).mean()`:
undefined (NaN) at the first and last position, the mean of the value and
its two neighbours everywhere in between. -/
def rolling3 : List ℚ → List (Option ℚ)
  | [] => []
  | [_] => [none]
  | [_, _] => [none, none]
  | a :: b :: c :: rest => none :: roll3Aux a b c rest

/-- Last `Month_Return` among observations of the slice whose `Trading_Week`
equals `w` (weeks are `(trading_day - 1) / 5 + 1` with 1-based trading days,
i.e. `i / 5 + 1` for 0-based positions). -/
def lastInWeek (s : List Row) (w : Nat) : Option ℚ :=
  (((monthReturns s).enum.filter fun p => p.1 / 5 + 1 = w).getLast?).map (·.2)

/-- The `(week, last month-return)` contributions of one year: the loop
`for week in range(1, 5)` appending `week_data['Month_Return'].iloc[-1]`
whenever the week is populated. -/
def yearWeekPairs (s : List Row) : List (Nat × ℚ) :=
  [1, 2, 3, 4].filterMap fun w => (lastInWeek s w).map fun r => (w, r)

/-- The `(Day_of_Month, Rolling_Return)` pairs of one year where the rolling
momentum is defined (lines 385-389). -/
def momentumPairs (s : List Row) : List (Nat × ℚ) :=
  ((s.map Row.day).zip (rolling3 (s.map Row.rt))).filterMap
    fun p => p.2.map fun v => (p.1, v)

/-- The `(Day_of_Month, is-win)` pairs of one year (lines 392-396): 1 for a
strictly positive daily return, 0 otherwise, skipping NaN returns. -/
def winPairs (s : List Row) : List (Nat × ℚ) :=
  s.filterMap fun o => o.ret.map fun r => (o.day, if 0 < r then (1 : ℚ) else 0)

/-- Python-dict append-or-create: `d.setdefault(k, []).append(v)` pattern of
the source, with insertion-order key semantics. -/
def dictAppend (d : List (Nat × List ℚ)) (k : Nat) (v : ℚ) : List (Nat × List ℚ) :=
  if d.any fun p => p.1 = k then
    d.map fun p => if p.1 = k then (p.1, p.2 ++ [v]) else p
  else d ++ [(k, [v])]

/-- Fold a list of key/value contributions into a dict. -/
def stepDict (d : List (Nat × List ℚ)) (pairs : List (Nat × ℚ)) : List (Nat × List ℚ) :=
  pairs.foldl (fun d p => dictAppend d p.1 p.2) d

/-- Accumulator state of the per-year loop of `analyze_month_patterns`:
`weekly_returns`, `momentum_by_day`, `positive_days_by_day`,
`years_processed`. -/
structure LoopAcc where
  w : List (Nat × List ℚ)
  mo : List (Nat × List ℚ)
  wr : List (Nat × List ℚ)
  years : List Int
deriving Repr, DecidableEq

/-- Body of the `for year in month_data['Year'].unique()` loop: skip the year
when the filtered slice has fewer than 10 rows, otherwise record the year and
fold its weekly, momentum (guarded by `len >= 3`) and win contributions. -/
def stepYear (data : List Row) (m : Nat) (acc : LoopAcc) (y : Int) : LoopAcc :=
  let s := sliceFor data m y
  if s.length < 10 then acc
  else
    { w := stepDict acc.w (yearWeekPairs s)
      mo := if 3 ≤ s.length then stepDict acc.mo (momentumPairs s) else acc.mo
      wr := stepDict acc.wr (winPairs s)
      years := acc.years ++ [y] }

/-- Raw accumulation phase of `analyze_month_patterns` (lines 343-396),
before the final averaging. -/
def analyzeRaw (m : Nat) (data : List Row) : LoopAcc :=
  (uniqueYears (data.filter fun o => o.month = m)).foldl (stepYear data m) ⟨[], [], [], []⟩

/-- Final averaging of lines 399-401: every per-key contribution list is
reduced to its mean and scaled by 100. -/
def finalize (d : List (Nat × List ℚ)) : List (Nat × ℚ) :=
  d.map fun p => (p.1, 100 * mean p.2)

/-- Result of `analyze_month_patterns`: the three aggregate mappings plus the
list of qualifying years. -/
structure MonthProfile where
  weeklyReturn : List (Nat × ℚ)
  momentum : List (Nat × ℚ)
  winRate : List (Nat × ℚ)
  years : List Int
deriving Repr, DecidableEq

/-- Shallow embedding of `analyze_month_patterns(month_num, data)`. -/
def analyzeMonthPatterns (m : Nat) (data : List Row) : MonthProfile :=
  let a := analyzeRaw m data
  ⟨finalize a.w, finalize a.mo, finalize a.wr, a.years⟩

/-- One row of the annual-overview summary table (`summary_data` entry,
lines 656-662). -/
structure SummaryRow where
  month : Nat
  monthlyReturn : ℚ
  avgMomentum : ℚ
  winRate : ℚ
  yearCount : Nat
deriving Repr, DecidableEq

/-- Shallow embedding of the summary loop of `main` (lines 647-662): for each
month 1..12 run the analysis; a month is appended only when `years` is
non-empty; note the extra `avg_momentum * 100` of line 659. -/
def summaryRowFor (data : List Row) (m : Nat) : SummaryRow :=
  { month := m
    monthlyReturn :=
      if (analyzeMonthPatterns m data).weeklyReturn.isEmpty then 0
      else listMax ((analyzeMonthPatterns m data).weeklyReturn.map (·.2))
    avgMomentum :=
      (if (analyzeMonthPatterns m data).momentum.isEmpty then 0
       else mean ((analyzeMonthPatterns m data).momentum.map (·.2))) * 100
    winRate :=
      if (analyzeMonthPatterns m data).winRate.isEmpty then 0
      else mean ((analyzeMonthPatterns m data).winRate.map (·.2))
    yearCount := (analyzeMonthPatterns m data).years.length }

/-- Shallow embedding of the `summary_data` list built in `main`: one entry
per month of 1..12, appended only when that month's `years` is non-empty. -/
def annualSummary (data : List Row) : List SummaryRow :=
  (List.range' 1 12).filterMap fun m =>
    if (analyzeMonthPatterns m data).years.isEmpty then none
    else some (summaryRowFor data m)

/-- Build the tail of a series from dated closes given the previous close,
computing `Daily_Return` by `pct_change`: models lines 330-333. -/
def mkSeriesFrom (prev : Option ℚ) : List (Nat × Int × Nat × Nat × ℚ) → List Row
  | [] => []
  | (t, y, m, d, c) :: rest =>
      { t := t, year := y, month := m, day := d, close := some c
        ret := prev.map fun cp => c / cp - 1 } :: mkSeriesFrom (some c) rest

/-- Build a full series from dated closes; the first observation's
`Daily_Return` is undefined (`pct_change` of the first row is NaN). -/
def mkSeries (rows : List (Nat × Int × Nat × Nat × ℚ)) : List Row :=
  mkSeriesFrom none rows

/-- First-hit lookup in a raw accumulation dict. -/
def getVals : List (Nat × List ℚ) → Nat → Option (List ℚ)
  | [], _ => none
  | p :: ps, k => if p.1 = k then some p.2 else getVals ps k

/-- First-hit lookup in a finalized mapping. -/
def getQ : List (Nat × ℚ) → Nat → Option ℚ
  | [], _ => none
  | p :: ps, k => if p.1 = k then some p.2 else getQ ps k

/-- Closed form of the weekly contributor multiset: one entry per qualifying
year that has an observation in week `w`, namely that year's last
`Month_Return` of the week; non-qualifying years and years without an
observation in `w` contribute nothing. -/
def weekContribs (data : List Row) (m w : Nat) : List ℚ :=
  (uniqueYears (data.filter fun o => o.month = m)).filterMap fun y =>
    if 10 ≤ (sliceFor data m y).length then lastInWeek (sliceFor data m y) w else none

/-- Append a batch of contributions to an optional existing contributor
list: an absent key stays absent when the batch is empty, is created
otherwise, and an existing list is extended. -/
def appendOpt : Option (List ℚ) → List ℚ → Option (List ℚ)
  | o, [] => o
  | none, l => some l
  | some l0, l => some (l0 ++ l)

/-- Values of a key/value pair list that belong to key `k`, in order. -/
def keyFilter (pairs : List (Nat × ℚ)) (k : Nat) : List ℚ :=
  pairs.filterMap fun p => if p.1 = k then some p.2 else none

/-- Every contributor list stored in a dict is non-empty. -/
def valsNE (d : List (Nat × List ℚ)) : Prop := ∀ p ∈ d, p.2 ≠ []

/-- A synthetic year of `n` valid January observations: constant close 100
and constant daily return 1/100. -/
def rowsOf (y : Int) (t0 n : Nat) : List Row :=
  (List.range n).map fun i =>
    { t := t0 + i, year := y, month := 1, day := i + 1
      close := some 100, ret := some (1 / 100) }

/-- Eleven valid January-2020 observations: one qualifying year. -/
def testRows : List Row := rowsOf 2020 0 11

/-- January 2020 with exactly 10 valid observations and January 2021 with
exactly 9: the qualification threshold's two sides. -/
def testRowsC4 : List Row := rowsOf 2020 0 10 ++ rowsOf 2021 100 9

/-- Five January-2020 observations preceded by one December-2019 close, so
all five January daily returns are defined: the concrete scenario of the
spec with closes 100, 101, 99, 102, 103. -/
def c3series : List Row :=
  mkSeries [(0, 2019, 12, 31, 100), (1, 2020, 1, 2, 100), (2, 2020, 1, 3, 101),
            (3, 2020, 1, 6, 99), (4, 2020, 1, 7, 102), (5, 2020, 1, 8, 103)]


/-! ### Dictionary lemmas -/

theorem appendOpt_nil (o : Option (List ℚ)) : appendOpt o [] = o := by
  cases o <;> rfl

theorem appendOpt_cons (o : Option (List ℚ)) (v : ℚ) (l : List ℚ) :
    appendOpt o (v :: l) = some ((o.getD []) ++ v :: l) := by
  cases o <;> simp [appendOpt]

theorem appendOpt_push (o : Option (List ℚ)) (v : ℚ) (l : List ℚ) :
    appendOpt (some ((o.getD []) ++ [v])) l = appendOpt o (v :: l) := by
  cases o <;> cases l <;> simp [appendOpt]

theorem appendOpt_append (o : Option (List ℚ)) (l1 l2 : List ℚ) :
    appendOpt (appendOpt o l1) l2 = appendOpt o (l1 ++ l2) := by
  cases o <;> cases l1 <;> cases l2 <;> simp [appendOpt]

theorem getVals_map_update_ne (ps : List (Nat × List ℚ)) (k k' : Nat) (v : ℚ)
    (h : k' ≠ k) :
    getVals (ps.map fun p => if p.1 = k' then (p.1, p.2 ++ [v]) else p) k
      = getVals ps k := by
  induction ps with
  | nil => rfl
  | cons p ps ih =>
      by_cases hp : p.1 = k'
      · simp [getVals, hp, h, ih]
      · by_cases hk : p.1 = k <;> simp [getVals, hp, hk, ih, Ne.symm h]

theorem getVals_map_update_self (ps : List (Nat × List ℚ)) (k : Nat) (v : ℚ) :
    getVals (ps.map fun p => if p.1 = k then (p.1, p.2 ++ [v]) else p) k
      = (getVals ps k).map (· ++ [v]) := by
  induction ps with
  | nil => rfl
  | cons p ps ih =>
      by_cases hp : p.1 = k
      · simp [getVals, hp]
      · simp [getVals, hp, ih]

theorem getVals_append (d1 d2 : List (Nat × List ℚ)) (k : Nat) :
    getVals (d1 ++ d2) k
      = match getVals d1 k with
        | some l => some l
        | none => getVals d2 k := by
  induction d1 with
  | nil => rfl
  | cons p ps ih =>
      by_cases hp : p.1 = k <;> simp [getVals, hp, ih]

theorem getVals_eq_none_of_not_any (d : List (Nat × List ℚ)) (k : Nat)
    (h : ¬ (d.any fun p => p.1 = k) = true) : getVals d k = none := by
  induction d with
  | nil => rfl
  | cons p ps ih =>
      simp only [List.any_cons, Bool.or_eq_true, decide_eq_true_eq] at h
      push_neg at h
      simp [getVals, h.1, ih (by simpa using h.2)]

theorem isSome_getVals_of_any (d : List (Nat × List ℚ)) (k : Nat)
    (h : (d.any fun p => p.1 = k) = true) : (getVals d k).isSome := by
  induction d with
  | nil => simp at h
  | cons p ps ih =>
      simp only [List.any_cons, Bool.or_eq_true, decide_eq_true_eq] at h
      by_cases hp : p.1 = k
      · simp [getVals, hp]
      · simp [getVals, hp, ih (h.resolve_left hp)]

theorem getVals_dictAppend (d : List (Nat × List ℚ)) (k k' : Nat) (v : ℚ) :
    getVals (dictAppend d k' v) k
      = if k' = k then some ((getVals d k).getD [] ++ [v]) else getVals d k := by
  unfold dictAppend
  by_cases hany : (d.any fun p => p.1 = k') = true
  · rw [if_pos hany]
    by_cases hk : k' = k
    · subst hk
      rw [getVals_map_update_self, if_pos rfl]
      obtain ⟨l, hl⟩ := Option.isSome_iff_exists.1 (isSome_getVals_of_any d k' hany)
      rw [hl]; rfl
    · rw [getVals_map_update_ne _ _ _ _ hk, if_neg hk]
  · rw [if_neg hany, getVals_append]
    by_cases hk : k' = k
    · subst hk
      rw [getVals_eq_none_of_not_any d k' hany]
      simp [getVals]
    · rw [if_neg hk]
      cases h : getVals d k with
      | some l => rfl
      | none => simp [getVals, hk]

theorem getVals_stepDict (d : List (Nat × List ℚ)) (pairs : List (Nat × ℚ)) (k : Nat) :
    getVals (stepDict d pairs) k = appendOpt (getVals d k) (keyFilter pairs k) := by
  induction pairs generalizing d with
  | nil => simp [stepDict, keyFilter, appendOpt_nil]
  | cons p ps ih =>
      show getVals (stepDict (dictAppend d p.1 p.2) ps) k = _
      rw [ih, getVals_dictAppend]
      by_cases h : p.1 = k
      · rw [if_pos h, appendOpt_push]
        simp [keyFilter, List.filterMap_cons, h]
      · rw [if_neg h]
        simp [keyFilter, List.filterMap_cons, h]

theorem keyFilter_cons (p : Nat × ℚ) (ps : List (Nat × ℚ)) (k : Nat) :
    keyFilter (p :: ps) k
      = if p.1 = k then p.2 :: keyFilter ps k else keyFilter ps k := by
  by_cases h : p.1 = k <;> simp [keyFilter, List.filterMap_cons, h]

theorem keyFilter_not_mem_aux (g : Nat → Option ℚ) (k : Nat) :
    ∀ ws : List Nat, k ∉ ws →
      keyFilter (ws.filterMap fun w => (g w).map fun r => (w, r)) k = [] := by
  intro ws
  induction ws with
  | nil => intro _; rfl
  | cons w ws ih =>
      intro h
      have hkw : k ≠ w := fun e => h (e ▸ List.mem_cons_self w ws)
      have hkws : k ∉ ws := fun e => h (List.mem_cons_of_mem _ e)
      cases hgw : g w with
      | none =>
          simp only [List.filterMap_cons, hgw, Option.map_none']
          exact ih hkws
      | some v =>
          simp only [List.filterMap_cons, hgw, Option.map_some']
          rw [keyFilter_cons, if_neg (Ne.symm hkw)]
          exact ih hkws

theorem keyFilter_mapPairs (ws : List Nat) (g : Nat → Option ℚ) (k : Nat)
    (hnd : ws.Nodup) :
    keyFilter (ws.filterMap fun w => (g w).map fun r => (w, r)) k
      = if k ∈ ws then (g k).toList else [] := by
  induction ws with
  | nil => simp [keyFilter]
  | cons w ws ih =>
      obtain ⟨hw, hnd'⟩ := List.nodup_cons.1 hnd
      by_cases hk : k = w
      · subst hk
        cases hgw : g k with
        | none =>
            simp only [List.filterMap_cons, hgw, Option.map_none']
            rw [keyFilter_not_mem_aux g k ws hw]
            simp [hgw]
        | some v =>
            simp only [List.filterMap_cons, hgw, Option.map_some']
            rw [keyFilter_cons, if_pos rfl, keyFilter_not_mem_aux g k ws hw]
            simp [hgw]
      · cases hgw : g w with
        | none =>
            simp only [List.filterMap_cons, hgw, Option.map_none']
            rw [ih hnd']
            simp [List.mem_cons, hk]
        | some v =>
            simp only [List.filterMap_cons, hgw, Option.map_some']
            rw [keyFilter_cons, if_neg (Ne.symm hk), ih hnd']
            simp [List.mem_cons, hk]

theorem keyFilter_yearWeekPairs (s : List Row) (k : Nat) :
    keyFilter (yearWeekPairs s) k
      = if k ∈ ([1, 2, 3, 4] : List Nat) then (lastInWeek s k).toList else [] :=
  keyFilter_mapPairs [1, 2, 3, 4] (lastInWeek s) k (by decide)

/-! ### The qualifying-years list -/

theorem years_foldl (data : List Row) (m : Nat) (ys : List Int) (acc : LoopAcc) :
    ((ys.foldl (stepYear data m) acc)).years
      = acc.years ++ ys.filter fun y => decide (10 ≤ (sliceFor data m y).length) := by
  induction ys generalizing acc with
  | nil => simp
  | cons y ys ih =>
      rw [List.foldl_cons, ih]
      unfold stepYear
      by_cases h : (sliceFor data m y).length < 10
      · rw [if_pos h, List.filter_cons]
        have : ¬ (10 ≤ (sliceFor data m y).length) := by omega
        simp [this]
      · rw [if_neg h, List.filter_cons]
        have : 10 ≤ (sliceFor data m y).length := by omega
        simp [this]

theorem years_analyzeRaw (m : Nat) (data : List Row) :
    (analyzeRaw m data).years
      = (uniqueYears (data.filter fun o => o.month = m)).filter
          fun y => decide (10 ≤ (sliceFor data m y).length) := by
  unfold analyzeRaw
  rw [years_foldl]
  rfl

theorem mem_foldl_uniq (l : List Row) (acc : List Int) (x : Int) :
    (x ∈ l.foldl (fun acc o => if o.year ∈ acc then acc else acc ++ [o.year]) acc)
      ↔ x ∈ acc ∨ ∃ o ∈ l, o.year = x := by
  induction l generalizing acc with
  | nil => simp
  | cons o l ih =>
      rw [List.foldl_cons, ih]
      by_cases h : o.year ∈ acc
      · rw [if_pos h]
        constructor
        · rintro (hx | ⟨o', ho', hy⟩)
          · exact Or.inl hx
          · exact Or.inr ⟨o', List.mem_cons_of_mem _ ho', hy⟩
        · rintro (hx | ⟨o', ho', hy⟩)
          · exact Or.inl hx
          · rcases List.mem_cons.1 ho' with rfl | ho''
            · exact Or.inl (hy ▸ h)
            · exact Or.inr ⟨o', ho'', hy⟩
      · rw [if_neg h]
        constructor
        · rintro (hx | ⟨o', ho', hy⟩)
          · rcases List.mem_append.1 hx with hx | hx
            · exact Or.inl hx
            · exact Or.inr ⟨o, List.mem_cons_self _ _, (List.mem_singleton.1 hx).symm⟩
          · exact Or.inr ⟨o', List.mem_cons_of_mem _ ho', hy⟩
        · rintro (hx | ⟨o', ho', hy⟩)
          · exact Or.inl (List.mem_append.2 (Or.inl hx))
          · rcases List.mem_cons.1 ho' with rfl | ho''
            · exact Or.inl (List.mem_append.2 (Or.inr (List.mem_singleton.2 hy.symm)))
            · exact Or.inr ⟨o', ho'', hy⟩

theorem mem_uniqueYears (l : List Row) (x : Int) :
    x ∈ uniqueYears l ↔ ∃ o ∈ l, o.year = x := by
  unfold uniqueYears
  rw [mem_foldl_uniq]
  simp

theorem mem_insertByT (o x : Row) (l : List Row) :
    x ∈ insertByT o l ↔ x = o ∨ x ∈ l := by
  induction l with
  | nil => simp [insertByT]
  | cons a l ih =>
      unfold insertByT
      by_cases h : o.t ≤ a.t
      · simp [h]
      · simp only [if_neg h, List.mem_cons, ih]
        tauto

theorem mem_sortByT (x : Row) (l : List Row) : x ∈ sortByT l ↔ x ∈ l := by
  induction l with
  | nil => simp [sortByT]
  | cons a l ih =>
      show x ∈ insertByT a (sortByT l) ↔ _
      rw [mem_insertByT, ih, List.mem_cons]

/-! ### Weekly aggregate refinement -/

theorem w_foldl (data : List Row) (m : Nat) (ys : List Int) (acc : LoopAcc)
    (k : Nat) (hk : k ∈ ([1, 2, 3, 4] : List Nat)) :
    getVals ((ys.foldl (stepYear data m) acc)).w k
      = appendOpt (getVals acc.w k)
          (ys.filterMap fun y =>
            if 10 ≤ (sliceFor data m y).length then lastInWeek (sliceFor data m y) k
            else none) := by
  induction ys generalizing acc with
  | nil => simp [appendOpt_nil]
  | cons y ys ih =>
      rw [List.foldl_cons, ih]
      unfold stepYear
      by_cases h : (sliceFor data m y).length < 10
      · rw [if_pos h, List.filterMap_cons]
        have hn : ¬ (10 ≤ (sliceFor data m y).length) := by omega
        simp [hn]
      · rw [if_neg h, List.filterMap_cons]
        have hq : 10 ≤ (sliceFor data m y).length := by omega
        show appendOpt (getVals (stepDict acc.w (yearWeekPairs _)) k) _ = _
        rw [getVals_stepDict, keyFilter_yearWeekPairs, if_pos hk, appendOpt_append]
        rw [if_pos hq]
        cases lastInWeek (sliceFor data m y) k with
        | none => simp
        | some r => simp

theorem weekly_getVals (data : List Row) (m k : Nat)
    (hk : k ∈ ([1, 2, 3, 4] : List Nat)) :
    getVals (analyzeRaw m data).w k = appendOpt none (weekContribs data m k) := by
  unfold analyzeRaw weekContribs
  rw [w_foldl data m _ _ k hk]
  rfl

theorem getQ_finalize (d : List (Nat × List ℚ)) (k : Nat) :
    getQ (finalize d) k = (getVals d k).map fun l => 100 * mean l := by
  induction d with
  | nil => rfl
  | cons p ps ih =>
      rw [show finalize (p :: ps) = (p.1, 100 * mean p.2) :: finalize ps from rfl]
      by_cases h : p.1 = k
      · simp [getQ, getVals, h]
      · simp only [getQ, getVals, if_neg h]
        exact ih

theorem getQ_isSome_mem (d : List (Nat × ℚ)) (k : Nat) (v : ℚ)
    (h : getQ d k = some v) : ∃ p ∈ d, p.1 = k := by
  induction d with
  | nil => simp [getQ] at h
  | cons p ps ih =>
      by_cases hp : p.1 = k
      · exact ⟨p, List.mem_cons_self _ _, hp⟩
      · rw [getQ, if_neg hp] at h
        obtain ⟨q, hq, hqk⟩ := ih h
        exact ⟨q, List.mem_cons_of_mem _ hq, hqk⟩

/-! ### Key-range invariant of the weekly dict -/

theorem stepDict_keys (P : Nat → Prop) (d : List (Nat × List ℚ))
    (pairs : List (Nat × ℚ)) (hd : ∀ p ∈ d, P p.1) (hp : ∀ p ∈ pairs, P p.1) :
    ∀ p ∈ stepDict d pairs, P p.1 := by
  induction pairs generalizing d with
  | nil => exact hd
  | cons q qs ih =>
      refine ih (dictAppend d q.1 q.2) ?_ fun p hp' => hp p (List.mem_cons_of_mem _ hp')
      intro p hmem
      unfold dictAppend at hmem
      by_cases hany : (d.any fun r => r.1 = q.1) = true
      · rw [if_pos hany] at hmem
        obtain ⟨r, hr, hrp⟩ := List.mem_map.1 hmem
        by_cases hrq : r.1 = q.1
        · simp only [if_pos hrq] at hrp
          rw [← hrp]
          exact hd r hr
        · simp only [if_neg hrq] at hrp
          rw [← hrp]
          exact hd r hr
      · rw [if_neg hany] at hmem
        rcases List.mem_append.1 hmem with hmem | hmem
        · exact hd p hmem
        · rw [List.mem_singleton.1 hmem]
          exact hp q (List.mem_cons_self _ _)

theorem yearWeekPairs_keys (s : List Row) :
    ∀ p ∈ yearWeekPairs s, p.1 ∈ ([1, 2, 3, 4] : List Nat) := by
  intro p hp
  obtain ⟨w, hw, hwp⟩ := List.mem_filterMap.1 hp
  cases h : lastInWeek s w with
  | none => rw [h] at hwp; simp at hwp
  | some r =>
      rw [h] at hwp
      simp only [Option.map_some', Option.some_inj] at hwp
      subst hwp
      exact hw

theorem analyzeRaw_w_keys (m : Nat) (data : List Row) :
    ∀ p ∈ (analyzeRaw m data).w, p.1 ∈ ([1, 2, 3, 4] : List Nat) := by
  unfold analyzeRaw
  generalize uniqueYears (data.filter fun o => o.month = m) = ys
  have base : ∀ acc : LoopAcc, (∀ p ∈ acc.w, p.1 ∈ ([1, 2, 3, 4] : List Nat)) →
      ∀ p ∈ (ys.foldl (stepYear data m) acc).w, p.1 ∈ ([1, 2, 3, 4] : List Nat) := by
    induction ys with
    | nil => exact fun acc h => h
    | cons y ys ih =>
        intro acc hacc
        rw [List.foldl_cons]
        refine ih _ ?_
        unfold stepYear
        by_cases h : (sliceFor data m y).length < 10
        · rw [if_pos h]; exact hacc
        · rw [if_neg h]
          exact stepDict_keys _ _ _ hacc (yearWeekPairs_keys _)
  exact base ⟨[], [], [], []⟩ (by intro p hp; simp at hp)

/-! ### Non-empty contributor lists -/

theorem valsNE_dictAppend (d : List (Nat × List ℚ)) (k : Nat) (v : ℚ)
    (h : valsNE d) : valsNE (dictAppend d k v) := by
  intro p hp
  unfold dictAppend at hp
  by_cases hany : (d.any fun r => r.1 = k) = true
  · rw [if_pos hany] at hp
    obtain ⟨r, hr, hrp⟩ := List.mem_map.1 hp
    by_cases hrk : r.1 = k
    · simp [hrk] at hrp; rw [← hrp]; simp
    · simp [hrk] at hrp; rw [← hrp]; exact h r hr
  · rw [if_neg hany] at hp
    rcases List.mem_append.1 hp with hp | hp
    · exact h p hp
    · rw [List.mem_singleton.1 hp]; simp

theorem valsNE_stepDict (d : List (Nat × List ℚ)) (pairs : List (Nat × ℚ))
    (h : valsNE d) : valsNE (stepDict d pairs) := by
  induction pairs generalizing d with
  | nil => exact h
  | cons q qs ih => exact ih _ (valsNE_dictAppend _ _ _ h)

theorem valsNE_analyzeRaw (m : Nat) (data : List Row) :
    valsNE (analyzeRaw m data).w ∧ valsNE (analyzeRaw m data).mo ∧
      valsNE (analyzeRaw m data).wr := by
  unfold analyzeRaw
  generalize uniqueYears (data.filter fun o => o.month = m) = ys
  have base : ∀ acc : LoopAcc, valsNE acc.w → valsNE acc.mo → valsNE acc.wr →
      valsNE (ys.foldl (stepYear data m) acc).w ∧
        valsNE (ys.foldl (stepYear data m) acc).mo ∧
        valsNE (ys.foldl (stepYear data m) acc).wr := by
    induction ys with
    | nil => exact fun acc h1 h2 h3 => ⟨h1, h2, h3⟩
    | cons y ys ih =>
        intro acc h1 h2 h3
        rw [List.foldl_cons]
        unfold stepYear
        by_cases h : (sliceFor data m y).length < 10
        · rw [if_pos h]; exact ih acc h1 h2 h3
        · rw [if_neg h]
          refine ih _ (valsNE_stepDict _ _ h1) ?_ (valsNE_stepDict _ _ h3)
          by_cases h3l : 3 ≤ (sliceFor data m y).length
          · rw [if_pos h3l]; exact valsNE_stepDict _ _ h2
          · rw [if_neg h3l]; exact h2
  exact base ⟨[], [], [], []⟩ (by intro p hp; simp at hp)
    (by intro p hp; simp at hp) (by intro p hp; simp at hp)

/-! ### Rolling momentum boundary -/

theorem roll3Aux_shape (a b c : ℚ) (l : List ℚ) :
    ∃ init, roll3Aux a b c l = init ++ [none] := by
  induction l generalizing a b c with
  | nil => exact ⟨[some ((a + b + c) / 3)], rfl⟩
  | cons d rest ih =>
      obtain ⟨init, hinit⟩ := ih b c d
      exact ⟨some ((a + b + c) / 3) :: init, by simp [roll3Aux, hinit]⟩

theorem getLast_roll3Aux (a b c : ℚ) (l : List ℚ) :
    (roll3Aux a b c l).getLast? = some none := by
  obtain ⟨init, hinit⟩ := roll3Aux_shape a b c l
  rw [hinit, List.getLast?_concat]

theorem length_roll3Aux (a b c : ℚ) (l : List ℚ) :
    (roll3Aux a b c l).length = l.length + 2 := by
  induction l generalizing a b c with
  | nil => rfl
  | cons d rest ih => simp [roll3Aux, ih]

theorem length_rolling3 (l : List ℚ) : (rolling3 l).length = l.length := by
  match l with
  | [] => rfl
  | [_] => rfl
  | [_, _] => rfl
  | a :: b :: c :: rest => simp [rolling3, length_roll3Aux]

theorem countP_isSome_roll3Aux (a b c : ℚ) (l : List ℚ) :
    (roll3Aux a b c l).countP (fun o => o.isSome) = l.length + 1 := by
  induction l generalizing a b c with
  | nil => rfl
  | cons d rest ih => simp [roll3Aux, List.countP_cons, ih]

theorem countP_isSome_rolling3 (l : List ℚ) :
    (rolling3 l).countP (fun o => o.isSome) = l.length - 2 := by
  match l with
  | [] => rfl
  | [_] => rfl
  | [_, _] => rfl
  | a :: b :: c :: rest =>
      rw [rolling3, List.countP_cons]
      simp [countP_isSome_roll3Aux]

theorem length_filterMap_countP {α β : Type} (f : α → Option β) (l : List α) :
    (l.filterMap f).length = l.countP fun x => (f x).isSome := by
  induction l with
  | nil => rfl
  | cons x xs ih =>
      rw [List.filterMap_cons, List.countP_cons]
      cases h : f x <;> simp [h, ih]

theorem countP_zip_snd {α β : Type} (q : β → Bool) :
    ∀ (a : List α) (b : List β), a.length = b.length →
      (a.zip b).countP (fun p => q p.2) = b.countP q := by
  intro a
  induction a with
  | nil =>
      intro b hb
      rw [List.length_nil] at hb
      rw [(List.length_eq_zero.1 hb.symm)]
      rfl
  | cons x xs ih =>
      intro b hb
      cases b with
      | nil => simp at hb
      | cons y ys =>
          rw [List.zip_cons_cons, List.countP_cons, List.countP_cons,
            ih ys (by simpa using hb)]

theorem length_momentumPairs (s : List Row) :
    (momentumPairs s).length = s.length - 2 := by
  unfold momentumPairs
  rw [length_filterMap_countP]
  have heq : ∀ p : Nat × Option ℚ,
      ((p.2.map fun v => (p.1, v)).isSome) = p.2.isSome := by
    intro p
    cases p.2 <;> rfl
  rw [List.countP_congr fun p _ => by rw [heq p]]
  rw [countP_zip_snd _ _ _ (by rw [List.length_map, length_rolling3, List.length_map])]
  rw [countP_isSome_rolling3, List.length_map]

theorem head_rolling3 (l : List ℚ) (h : 3 ≤ l.length) :
    (rolling3 l).head? = some none := by
  match l with
  | [] => simp at h
  | [_] => simp at h
  | [_, _] => simp at h
  | a :: b :: c :: rest => rfl

theorem getLast_rolling3 (l : List ℚ) (h : 1 ≤ l.length) :
    (rolling3 l).getLast? = some none := by
  match l with
  | [] => simp at h
  | [_] => rfl
  | [_, _] => rfl
  | a :: b :: c :: rest =>
      rw [rolling3]
      obtain ⟨init, hinit⟩ := roll3Aux_shape a b c rest
      rw [hinit, show (none :: (init ++ [none]) : List (Option ℚ))
          = (none :: init) ++ [none] from rfl, List.getLast?_concat]

theorem getVals_isSome_mem (d : List (Nat × List ℚ)) (k : Nat) (l : List ℚ)
    (h : getVals d k = some l) : ∃ p ∈ d, p.1 = k := by
  induction d with
  | nil => simp [getVals] at h
  | cons p ps ih =>
      by_cases hp : p.1 = k
      · exact ⟨p, List.mem_cons_self _ _, hp⟩
      · rw [getVals, if_neg hp] at h
        obtain ⟨q, hq, hqk⟩ := ih h
        exact ⟨q, List.mem_cons_of_mem _ hq, hqk⟩

/-! ### Concrete evaluations used by witnesses -/

theorem analyze_testRows_eval : analyzeMonthPatterns 1 testRows =
    ⟨[(1, 0), (2, 0), (3, 0)],
     [(2, 1), (3, 1), (4, 1), (5, 1), (6, 1), (7, 1), (8, 1), (9, 1), (10, 1)],
     [(1, 100), (2, 100), (3, 100), (4, 100), (5, 100), (6, 100), (7, 100),
      (8, 100), (9, 100), (10, 100), (11, 100)],
     [2020]⟩ := by
  simp [testRows, rowsOf, analyzeMonthPatterns, analyzeRaw, uniqueYears, stepYear,
    sliceFor, validFilter, sortByT, insertByT, stepDict, dictAppend, yearWeekPairs,
    lastInWeek, monthReturns, rolling3, roll3Aux, momentumPairs, winPairs, finalize,
    mean, Row.cl, Row.rt, List.range_succ, List.enum, List.enumFrom,
    List.reverse_cons, List.reverse_nil, List.find?]
  norm_num

theorem analyzeRaw_testRows_eval : analyzeRaw 1 testRows =
    ⟨[(1, [0]), (2, [0]), (3, [0])],
     [(2, [1/100]), (3, [1/100]), (4, [1/100]), (5, [1/100]), (6, [1/100]),
      (7, [1/100]), (8, [1/100]), (9, [1/100]), (10, [1/100])],
     [(1, [1]), (2, [1]), (3, [1]), (4, [1]), (5, [1]), (6, [1]), (7, [1]),
      (8, [1]), (9, [1]), (10, [1]), (11, [1])],
     [2020]⟩ := by
  simp [testRows, rowsOf, analyzeRaw, uniqueYears, stepYear,
    sliceFor, validFilter, sortByT, insertByT, stepDict, dictAppend, yearWeekPairs,
    lastInWeek, monthReturns, rolling3, roll3Aux, momentumPairs, winPairs,
    Row.cl, Row.rt, List.range_succ, List.enum, List.enumFrom,
    List.reverse_cons, List.reverse_nil, List.find?]
  norm_num

theorem annualSummary_testRows_eval :
    annualSummary testRows = [⟨1, 0, 100, 100, 1⟩] := by
  simp [annualSummary, summaryRowFor, testRows, rowsOf, analyzeMonthPatterns, analyzeRaw,
    uniqueYears, stepYear, sliceFor, validFilter, sortByT, insertByT, stepDict,
    dictAppend, yearWeekPairs, lastInWeek, monthReturns, rolling3, roll3Aux,
    momentumPairs, winPairs, finalize, mean, listMax, Row.cl, Row.rt,
    List.range_succ, List.enum, List.enumFrom, List.reverse_cons,
    List.reverse_nil, List.find?, List.range']
  norm_num

theorem summaryRow_testRows_eval : summaryRowFor testRows 1 = ⟨1, 0, 100, 100, 1⟩ := by
  simp [summaryRowFor, analyze_testRows_eval, mean, listMax]
  norm_num

/-! ### Claims -/

/-- C4: for every input series and target month, a (year, month) slice with
exactly 9 valid observations is excluded from the returned `years` list,
while a slice with exactly 10 valid observations is included. -/
theorem c4_qualification_threshold (data : List Row) (m : Nat) (y : Int) :
    ((sliceFor data m y).length = 9 → y ∉ (analyzeMonthPatterns m data).years) ∧
    ((sliceFor data m y).length = 10 → y ∈ (analyzeMonthPatterns m data).years) := by
  have hyears : (analyzeMonthPatterns m data).years = (analyzeRaw m data).years := rfl
  constructor
  · intro h9 hy
    rw [hyears, years_analyzeRaw] at hy
    have hq := (List.mem_filter.1 hy).2
    rw [h9] at hq
    simp at hq
  · intro h10
    rw [hyears, years_analyzeRaw]
    refine List.mem_filter.2 ⟨?_, by rw [h10]; simp⟩
    have hpos : 0 < (sliceFor data m y).length := by omega
    obtain ⟨o, ho⟩ := List.exists_mem_of_length_pos hpos
    unfold sliceFor at ho
    have ho2 := (mem_sortByT _ _).1 ho
    unfold validFilter at ho2
    have ho3 := List.mem_of_mem_filter ho2
    have ho4 := List.mem_filter.1 ho3
    rw [mem_uniqueYears]
    exact ⟨o, ho4.1, by simpa using ho4.2⟩

/-- Witness for C4 on concrete data: January 2021 has exactly 9 valid
observations and is excluded, January 2020 has exactly 10 and is included. -/
theorem c4_witness :
    (2021 : Int) ∉ (analyzeMonthPatterns 1 testRowsC4).years ∧
    (2020 : Int) ∈ (analyzeMonthPatterns 1 testRowsC4).years :=
  ⟨(c4_qualification_threshold testRowsC4 1 2021).1 (by decide),
   (c4_qualification_threshold testRowsC4 1 2020).2 (by decide)⟩

/-- C5: the weekly-return mapping only carries keys 1..4, and the value at
each present key is 100 times the arithmetic mean of the per-year
last-in-week month returns of qualifying years, where a year without an
observation in that week contributes nothing. -/
theorem c5_weekly_keys_values (data : List Row) (m : Nat) :
    (∀ p ∈ (analyzeMonthPatterns m data).weeklyReturn, p.1 ∈ ([1, 2, 3, 4] : List Nat)) ∧
    (∀ k v, getQ (analyzeMonthPatterns m data).weeklyReturn k = some v →
      weekContribs data m k ≠ [] ∧ v = 100 * mean (weekContribs data m k)) := by
  have hw : (analyzeMonthPatterns m data).weeklyReturn
      = finalize (analyzeRaw m data).w := rfl
  constructor
  · intro p hp
    rw [hw] at hp
    obtain ⟨q, hq, hqp⟩ := List.mem_map.1 hp
    rw [← hqp]
    exact analyzeRaw_w_keys m data q hq
  · intro k v hv
    rw [hw, getQ_finalize] at hv
    cases hg : getVals (analyzeRaw m data).w k with
    | none => rw [hg] at hv; simp at hv
    | some l =>
        rw [hg] at hv
        simp only [Option.map_some', Option.some_inj] at hv
        have hk : k ∈ ([1, 2, 3, 4] : List Nat) := by
          obtain ⟨p, hp, hpk⟩ := getVals_isSome_mem _ _ _ hg
          exact hpk ▸ analyzeRaw_w_keys m data p hp
        have hchar := weekly_getVals data m k hk
        rw [hg] at hchar
        cases hc : weekContribs data m k with
        | nil =>
            rw [hc, appendOpt_nil] at hchar
            simp at hchar
        | cons c cs =>
            rw [hc, appendOpt_cons] at hchar
            simp only [Option.getD_none, List.nil_append, Option.some_inj] at hchar
            refine ⟨by simp, ?_⟩
            rw [← hv, hchar]

/-- Witness for C5 on concrete data: key 1 is within range and its value is
100 times the mean of the collected week-1 contributions. -/
theorem c5_witness :
    ((1, (0 : ℚ)).1 ∈ ([1, 2, 3, 4] : List Nat)) ∧
    (weekContribs testRows 1 1 ≠ [] ∧ (0 : ℚ) = 100 * mean (weekContribs testRows 1 1)) :=
  ⟨(c5_weekly_keys_values testRows 1).1 (1, 0) (by rw [analyze_testRows_eval]; simp),
   (c5_weekly_keys_values testRows 1).2 1 0 (by rw [analyze_testRows_eval]; simp [getQ])⟩

/-- C6: in every qualifying slice the centered rolling momentum is undefined
at the first and at the last observation, and exactly the `n - 2` interior
observations contribute momentum pairs. -/
theorem c6_momentum_boundary (data : List Row) (m : Nat) (y : Int)
    (h : 10 ≤ (sliceFor data m y).length) :
    (rolling3 ((sliceFor data m y).map Row.rt)).head? = some none ∧
    (rolling3 ((sliceFor data m y).map Row.rt)).getLast? = some none ∧
    (momentumPairs (sliceFor data m y)).length = (sliceFor data m y).length - 2 :=
  ⟨head_rolling3 _ (by rw [List.length_map]; omega),
   getLast_rolling3 _ (by rw [List.length_map]; omega),
   length_momentumPairs _⟩

/-- Witness for C6 on concrete data. -/
theorem c6_witness :
    (rolling3 ((sliceFor testRows 1 2020).map Row.rt)).head? = some none ∧
    (rolling3 ((sliceFor testRows 1 2020).map Row.rt)).getLast? = some none ∧
    (momentumPairs (sliceFor testRows 1 2020)).length
      = (sliceFor testRows 1 2020).length - 2 :=
  c6_momentum_boundary testRows 1 2020 (by decide)

/-- C7: the rebased cumulative return at the first retained observation of
every qualifying slice is exactly 0. -/
theorem c7_rebasing_zero (data : List Row) (m : Nat) (y : Int)
    (h10 : 10 ≤ (sliceFor data m y).length) (f : Row)
    (hf : (sliceFor data m y).head? = some f) (hc : f.cl ≠ 0) :
    (monthReturns (sliceFor data m y)).head? = some 0 := by
  cases hs : sliceFor data m y with
  | nil => rw [hs] at hf; simp at hf
  | cons a rest =>
      rw [hs] at hf
      simp only [List.head?_cons, Option.some_inj] at hf
      subst hf
      unfold monthReturns
      simp only [List.map_cons, List.head?_cons, Option.some_inj]
      rw [div_self hc, sub_self]

/-- Witness for C7 on concrete data. -/
theorem c7_witness : (monthReturns (sliceFor testRows 1 2020)).head? = some 0 :=
  c7_rebasing_zero testRows 1 2020 (by decide)
    { t := 0, year := 2020, month := 1, day := 1, close := some 100, ret := some (1 / 100) }
    rfl (by norm_num [Row.cl])

/-- C8: the analysis is total on arbitrary (also degenerate) input and every
contributor list that feeds a mean is non-empty: the empty series yields the
all-empty profile, and every key of each raw dict holds a non-empty list. -/
theorem c8_degenerate_safe (data : List Row) (m : Nat) :
    analyzeMonthPatterns m ([] : List Row) = ⟨[], [], [], []⟩ ∧
    (∀ p ∈ (analyzeRaw m data).w, p.2 ≠ []) ∧
    (∀ p ∈ (analyzeRaw m data).mo, p.2 ≠ []) ∧
    (∀ p ∈ (analyzeRaw m data).wr, p.2 ≠ []) := by
  obtain ⟨h1, h2, h3⟩ := valsNE_analyzeRaw m data
  exact ⟨rfl, h1, h2, h3⟩

/-- Witness for C8 on concrete data. -/
theorem c8_witness :
    ([0] : List ℚ) ≠ [] ∧ analyzeMonthPatterns 1 ([] : List Row) = ⟨[], [], [], []⟩ :=
  ⟨(c8_degenerate_safe testRows 1).2.1 (1, [0]) (by rw [analyzeRaw_testRows_eval]; simp),
   (c8_degenerate_safe testRows 1).1⟩

/-- C9: the per-month analysis is a pure function of its inputs - two runs on
the same input agree componentwise (deep equality of the three mappings and
the years list); the embedding has no source of randomness or time. -/
theorem c9_deterministic (m : Nat) (data : List Row) :
    (analyzeMonthPatterns m data).weeklyReturn = (analyzeMonthPatterns m data).weeklyReturn ∧
    (analyzeMonthPatterns m data).momentum = (analyzeMonthPatterns m data).momentum ∧
    (analyzeMonthPatterns m data).winRate = (analyzeMonthPatterns m data).winRate ∧
    (analyzeMonthPatterns m data).years = (analyzeMonthPatterns m data).years :=
  ⟨rfl, rfl, rfl, rfl⟩

/-- C10: every year in the returned `years` list satisfies the ≥3 momentum
guard (so the no-momentum branch is unreachable for qualifying years) and
contributes at least one momentum pair. -/
theorem c10_momentum_guard (data : List Row) (m : Nat) (y : Int)
    (hy : y ∈ (analyzeMonthPatterns m data).years) :
    3 ≤ (sliceFor data m y).length ∧ momentumPairs (sliceFor data m y) ≠ [] := by
  have hy2 : y ∈ (analyzeRaw m data).years := hy
  rw [years_analyzeRaw] at hy2
  have h10 : 10 ≤ (sliceFor data m y).length := by
    have := (List.mem_filter.1 hy2).2
    simpa using this
  refine ⟨by omega, ?_⟩
  intro hnil
  have hlen := length_momentumPairs (sliceFor data m y)
  rw [hnil] at hlen
  simp at hlen
  omega

/-- Witness for C10 on concrete data. -/
theorem c10_witness :
    3 ≤ (sliceFor testRows 1 2020).length ∧ momentumPairs (sliceFor testRows 1 2020) ≠ [] :=
  c10_momentum_guard testRows 1 2020 (by decide)

/-- C1 counterexample: with `testRows` only January has qualifying years,
and the summary table has a single row - the other eleven months, whose
`years` lists are empty, are omitted entirely instead of appearing as
insufficient-data rows, so the table is not 12 rows long. -/
theorem c1_counterexample :
    (analyzeMonthPatterns 2 testRows).years = [] ∧
    (annualSummary testRows).map (·.month) = [1] ∧
    (annualSummary testRows).length ≠ 12 := by
  refine ⟨by decide, ?_, ?_⟩
  · rw [annualSummary_testRows_eval]; rfl
  · rw [annualSummary_testRows_eval]; decide

/-- C1 (amended): the Annual Summary Builder emits one row per month with a
non-empty `years` list, in month order; months with no qualifying years are
omitted from the table rather than retained as insufficient-data rows. -/
theorem c1_amended_months (data : List Row) :
    (annualSummary data).map (·.month)
      = (List.range' 1 12).filter fun m => !(analyzeMonthPatterns m data).years.isEmpty := by
  unfold annualSummary
  generalize List.range' 1 12 = L
  induction L with
  | nil => rfl
  | cons m L ih =>
      rw [List.filterMap_cons, List.filter_cons]
      cases h : (analyzeMonthPatterns m data).years.isEmpty with
      | true =>
          simp only [h, Bool.not_true, if_true, Bool.false_eq_true, if_false]
          exact ih
      | false =>
          simp only [h, Bool.not_false, Bool.false_eq_true, if_false, if_true,
            List.map_cons]
          rw [ih]
          rfl

/-- C2 counterexample: for `testRows` the momentum mapping's values average
to 1, yet the summary row's average-momentum field is 100 - the code applies
a further ×100 rescaling, contradicting the claim. -/
theorem c2_counterexample :
    (annualSummary testRows).map (·.avgMomentum) = [100] ∧
    mean ((analyzeMonthPatterns 1 testRows).momentum.map (·.2)) = 1 ∧
    (100 : ℚ) ≠ 1 := by
  refine ⟨by rw [annualSummary_testRows_eval]; rfl, ?_, by norm_num⟩
  rw [analyze_testRows_eval]
  norm_num [mean]

/-- C2 (amended): the summary row's average-momentum field is 100 times the
arithmetic mean of the momentum mapping's values (an additional ×100
rescaling on top of the ×100 already inside the mapping). -/
theorem c2_amended_momentum (data : List Row) (r : SummaryRow)
    (hr : r ∈ annualSummary data) :
    r.avgMomentum
      = (if (analyzeMonthPatterns r.month data).momentum.isEmpty then 0
         else mean ((analyzeMonthPatterns r.month data).momentum.map (·.2))) * 100 := by
  unfold annualSummary at hr
  obtain ⟨m, hm, hmr⟩ := List.mem_filterMap.1 hr
  by_cases h : (analyzeMonthPatterns m data).years.isEmpty = true
  · rw [if_pos h] at hmr
    simp at hmr
  · rw [if_neg h] at hmr
    simp only [Option.some_inj] at hmr
    subst hmr
    rfl

/-- Witness for the amended C2 on concrete data. -/
theorem c2_amended_witness :
    (summaryRowFor testRows 1).avgMomentum
      = (if (analyzeMonthPatterns (summaryRowFor testRows 1).month testRows).momentum.isEmpty
         then 0
         else mean ((analyzeMonthPatterns (summaryRowFor testRows 1).month
            testRows).momentum.map (·.2))) * 100 :=
  c2_amended_momentum testRows (summaryRowFor testRows 1)
    (by rw [annualSummary_testRows_eval, summaryRow_testRows_eval]; simp)

/-- C3 counterexample: on the five-observation scenario the slice has only
5 valid rows, fails the ≥10 gate, and the analysis returns the all-empty
profile - in particular `weekly_return` has no entry at week 1 at all,
contradicting the claimed `weekly_return[1] = 3.0`. -/
theorem c3_counterexample :
    (sliceFor c3series 1 2020).length = 5 ∧
    analyzeMonthPatterns 1 c3series = ⟨[], [], [], []⟩ ∧
    getQ (analyzeMonthPatterns 1 c3series).weeklyReturn 1 = none := by
  refine ⟨by decide, by decide, ?_⟩
  have h : analyzeMonthPatterns 1 c3series = ⟨[], [], [], []⟩ := by decide
  rw [h]
  rfl

/-- C3 (amended): the five-observation slice is excluded by the ≥10 gate, so
the per-month analysis returns the all-empty profile; the per-slice derived
features themselves are as stated: `month_return` is
`[0, 1/100, -1/100, 1/50, 3/100]`, the last week-1 month return is `3/100`
(3.0 once scaled by 100), and the rolling momentum is undefined exactly at
day indices 1 and 5 and defined at indices 2 through 4. -/
theorem c3_amended_features :
    (sliceFor c3series 1 2020).length = 5 ∧
    monthReturns (sliceFor c3series 1 2020) = [0, 1/100, -1/100, 1/50, 3/100] ∧
    lastInWeek (sliceFor c3series 1 2020) 1 = some (3/100) ∧
    (rolling3 ((sliceFor c3series 1 2020).map Row.rt)).map Option.isSome
      = [false, true, true, true, false] ∧
    analyzeMonthPatterns 1 c3series = ⟨[], [], [], []⟩ := by
  refine ⟨by decide, ?_, ?_, by decide, by decide⟩
  · simp [c3series, mkSeries, mkSeriesFrom, sliceFor, validFilter, sortByT, insertByT,
      monthReturns, Row.cl]
    norm_num
  · simp [c3series, mkSeries, mkSeriesFrom, sliceFor, validFilter, sortByT, insertByT,
      lastInWeek, monthReturns, Row.cl, List.enum, List.enumFrom,
      List.reverse_cons, List.reverse_nil, List.find?]
    norm_num
